import Mathlib

/-
Verification of the voice recorder / transcription application in main.py.

The embedding models:
  * the timestamp-derived transcript filenames produced by
    datetime.now().strftime("%Y%m%d_%H%M%S.txt") as lists of character
    code points, compared by the same lexicographic order Python uses
    for strings;
  * the transcripts directory as an association list from filename to
    file content, where open(path, "w") overwrites the entry at that name;
  * the waveform finalization in stop_record (concatenate, peak-normalize,
    scale by 32767, cast to int16) over exact rationals, with the IEEE NaN
    produced by 0.0/0.0 modelled as Option.none;
  * the mutable module state (recording flag, buffer, stream, level,
    status StringVar, directories) as an explicit state record, and
    start_record / stop_record / transcribe as state transformers.
-/

/-- Code points of the decimal digits of n, zero padded to width w, most
significant first, exactly as strftime renders a numeric field of width w
(48 is the code point of the digit 0). -/
def padDigits : ℕ → ℕ → List ℕ
  | 0, _ => []
  | w + 1, n => (48 + n / 10 ^ w) :: padDigits w (n % 10 ^ w)

theorem padDigits_length (w n : ℕ) : (padDigits w n).length = w := by
  induction w generalizing n with
  | zero => rfl
  | succ w ih => simp [padDigits, ih]

/-- Comparing two numbers is comparing their quotients and remainders by a
common positive modulus, lexicographically. -/
theorem lt_iff_div_mod (m a b : ℕ) (hm : 0 < m) :
    a < b ↔ (a / m < b / m ∨ (a / m = b / m ∧ a % m < b % m)) := by
  have ha := Nat.div_add_mod a m
  have hb := Nat.div_add_mod b m
  have hra : a % m < m := Nat.mod_lt _ hm
  have hrb : b % m < m := Nat.mod_lt _ hm
  constructor
  · intro hab
    have hq : a / m ≤ b / m := Nat.div_le_div_right (Nat.le_of_lt hab)
    rcases Nat.lt_or_ge (a / m) (b / m) with h | h
    · exact Or.inl h
    · have he : a / m = b / m := Nat.le_antisymm hq h
      refine Or.inr ⟨he, ?_⟩
      rw [he] at ha
      omega
  · rintro (h | ⟨he, hr⟩)
    · calc a < m * (a / m) + m := by omega
        _ = m * (a / m + 1) := by ring
        _ ≤ m * (b / m) := Nat.mul_le_mul_left m (Nat.succ_le_of_lt h)
        _ ≤ b := by omega
    · rw [he] at ha
      omega

theorem lex_cons_iff (a b : ℕ) (l1 l2 : List ℕ) :
    List.Lex (· < ·) (a :: l1) (b :: l2) ↔
      a < b ∨ (a = b ∧ List.Lex (· < ·) l1 l2) := by
  constructor
  · intro h
    cases h with
    | rel h => exact Or.inl h
    | cons h => exact Or.inr ⟨rfl, h⟩
  · rintro (h | ⟨rfl, h⟩)
    · exact List.Lex.rel h
    · exact List.Lex.cons h

/-- Lexicographic comparison of equal width zero padded digit strings is
numeric comparison. -/
theorem lex_padDigits :
    ∀ (w a b : ℕ), a < 10 ^ w → b < 10 ^ w →
      (List.Lex (· < ·) (padDigits w a) (padDigits w b) ↔ a < b) := by
  intro w
  induction w with
  | zero =>
    intro a b ha hb
    simp only [pow_zero, Nat.lt_one_iff] at ha hb
    subst ha; subst hb
    simp [padDigits]
  | succ w ih =>
    intro a b ha hb
    have hpw : 0 < 10 ^ w := Nat.pos_pow_of_pos w (by omega)
    have h1 : a % 10 ^ w < 10 ^ w := Nat.mod_lt _ hpw
    have h2 : b % 10 ^ w < 10 ^ w := Nat.mod_lt _ hpw
    rw [padDigits, padDigits, lex_cons_iff, ih _ _ h1 h2,
      lt_iff_div_mod (10 ^ w) a b hpw]
    omega

theorem padDigits_inj :
    ∀ (w a b : ℕ), a < 10 ^ w → b < 10 ^ w →
      padDigits w a = padDigits w b → a = b := by
  intro w
  induction w with
  | zero =>
    intro a b ha hb _
    simp only [pow_zero, Nat.lt_one_iff] at ha hb
    omega
  | succ w ih =>
    intro a b ha hb he
    have hpw : 0 < 10 ^ w := Nat.pos_pow_of_pos w (by omega)
    simp only [padDigits, List.cons.injEq] at he
    have hmod : a % 10 ^ w = b % 10 ^ w :=
      ih _ _ (Nat.mod_lt _ hpw) (Nat.mod_lt _ hpw) he.2
    have hdiv : a / 10 ^ w = b / 10 ^ w := by omega
    have ha2 := Nat.div_add_mod a (10 ^ w)
    have hb2 := Nat.div_add_mod b (10 ^ w)
    rw [hdiv, hmod] at ha2
    omega

/-- Lexicographic comparison of appended lists with equal length heads
splits into head comparison then tail comparison. -/
theorem lex_append_iff :
    ∀ (l1 l2 t1 t2 : List ℕ), l1.length = l2.length →
      (List.Lex (· < ·) (l1 ++ t1) (l2 ++ t2) ↔
        List.Lex (· < ·) l1 l2 ∨ (l1 = l2 ∧ List.Lex (· < ·) t1 t2)) := by
  intro l1
  induction l1 with
  | nil =>
    intro l2 t1 t2 hlen
    cases l2 with
    | nil => simp

    | cons b bs => simp at hlen
  | cons a as ih =>
    intro l2 t1 t2 hlen
    cases l2 with
    | nil => simp at hlen
    | cons b bs =>
      simp only [List.length_cons, Nat.succ.injEq] at hlen
      simp only [List.cons_append]
      rw [lex_cons_iff, lex_cons_iff, ih bs t1 t2 hlen]
      constructor
      · rintro (h | ⟨rfl, (h | ⟨rfl, h⟩)⟩)
        · exact Or.inl (Or.inl h)
        · exact Or.inl (Or.inr ⟨rfl, h⟩)
        · exact Or.inr ⟨rfl, h⟩
      · rintro ((h | ⟨rfl, h⟩) | ⟨he, h⟩)
        · exact Or.inl h
        · exact Or.inr ⟨rfl, Or.inl h⟩
        · rw [List.cons.injEq] at he
          exact Or.inr ⟨he.1, Or.inr ⟨he.2, h⟩⟩

theorem lex_pad_append_iff (w a b : ℕ) (ha : a < 10 ^ w) (hb : b < 10 ^ w)
    (r1 r2 : List ℕ) :
    List.Lex (· < ·) (padDigits w a ++ r1) (padDigits w b ++ r2) ↔
      (a < b ∨ (a = b ∧ List.Lex (· < ·) r1 r2)) := by
  rw [lex_append_iff _ _ _ _ (by rw [padDigits_length, padDigits_length]),
    lex_padDigits w a b ha hb]
  constructor
  · rintro (h | ⟨he, hr⟩)
    · exact Or.inl h
    · exact Or.inr ⟨padDigits_inj w a b ha hb he, hr⟩
  · rintro (h | ⟨rfl, hr⟩)
    · exact Or.inl h
    · exact Or.inr ⟨rfl, hr⟩

/-- A wall clock instant at the precision used by the filename format
"%Y%m%d_%H%M%S.txt" of datetime.now().strftime in transcribe. -/
structure DateTime where
  year : ℕ
  month : ℕ
  day : ℕ
  hour : ℕ
  minute : ℕ
  second : ℕ
deriving DecidableEq

/-- Bounds under which every strftime field of "%Y%m%d_%H%M%S" is rendered
at its fixed width (real calendar values always satisfy them). -/
def DateTime.Valid (t : DateTime) : Prop :=
  t.year < 10000 ∧ t.month < 100 ∧ t.day < 100 ∧
    t.hour < 100 ∧ t.minute < 100 ∧ t.second < 100

instance (t : DateTime) : Decidable t.Valid := by
  unfold DateTime.Valid
  infer_instance

/-- Chronological order on instants, field by field. -/
def DateTime.Earlier (t1 t2 : DateTime) : Prop :=
  t1.year < t2.year ∨ (t1.year = t2.year ∧
    (t1.month < t2.month ∨ (t1.month = t2.month ∧
      (t1.day < t2.day ∨ (t1.day = t2.day ∧
        (t1.hour < t2.hour ∨ (t1.hour = t2.hour ∧
          (t1.minute < t2.minute ∨ (t1.minute = t2.minute ∧
            t1.second < t2.second)))))))))

instance (t1 t2 : DateTime) : Decidable (t1.Earlier t2) := by
  unfold DateTime.Earlier
  infer_instance

/-- Code points of datetime.now().strftime("%Y%m%d_%H%M%S.txt"), the
transcript filename written in transcribe: four year digits, two digits for
each other field, 95 is the underscore, [46, 116, 120, 116] is ".txt". -/
def fnameOf (t : DateTime) : List ℕ :=
  padDigits 4 t.year ++ (padDigits 2 t.month ++ (padDigits 2 t.day ++
    (95 :: (padDigits 2 t.hour ++ (padDigits 2 t.minute ++
      (padDigits 2 t.second ++ [46, 116, 120, 116]))))))

/-- Python compares filenames as strings, lexicographically on code
points; on the fixed width timestamp format this is exactly chronological
order of the instants. -/
theorem fnameOf_lex_iff (t1 t2 : DateTime) (h1 : t1.Valid) (h2 : t2.Valid) :
    List.Lex (· < ·) (fnameOf t1) (fnameOf t2) ↔ DateTime.Earlier t1 t2 := by
  obtain ⟨hy1, hmo1, hd1, hh1, hmi1, hs1⟩ := h1
  obtain ⟨hy2, hmo2, hd2, hh2, hmi2, hs2⟩ := h2
  have htxt : ¬ List.Lex (· < ·) [46, 116, 120, 116] [46, 116, 120, 116] := by
    decide
  unfold fnameOf DateTime.Earlier
  rw [lex_pad_append_iff 4 _ _ hy1 hy2, lex_pad_append_iff 2 _ _ hmo1 hmo2,
    lex_pad_append_iff 2 _ _ hd1 hd2, lex_cons_iff,
    lex_pad_append_iff 2 _ _ hh1 hh2, lex_pad_append_iff 2 _ _ hmi1 hmi2,
    lex_pad_append_iff 2 _ _ hs1 hs2]
  simp [htxt]

theorem earlier_trichotomy (t1 t2 : DateTime) :
    t1.Earlier t2 ∨ t1 = t2 ∨ t2.Earlier t1 := by
  cases t1 with
  | mk y1 mo1 d1 h1 mi1 s1 =>
    cases t2 with
    | mk y2 mo2 d2 h2 mi2 s2 =>
      simp only [DateTime.Earlier, DateTime.mk.injEq]
      omega

/-- Distinct valid instants get distinct filenames. -/
theorem fnameOf_inj (t1 t2 : DateTime) (h1 : t1.Valid) (h2 : t2.Valid)
    (hne : t1 ≠ t2) : fnameOf t1 ≠ fnameOf t2 := by
  intro he
  rcases earlier_trichotomy t1 t2 with h | h | h
  · have hl := (fnameOf_lex_iff t1 t2 h1 h2).2 h
    rw [he] at hl
    exact lt_irrefl (fnameOf t2) hl
  · exact hne h
  · have hl := (fnameOf_lex_iff t2 t1 h2 h1).2 h
    rw [he] at hl
    exact lt_irrefl (fnameOf t2) hl

/-- The transcripts directory: an association list from filename (code
point list) to file content. Directory entries have unique names. -/
def Store : Type := List (List ℕ × String)

instance : DecidableEq Store := by
  unfold Store
  infer_instance

/-- Lines 116 and 117 of main.py: open(f"transcripts/{fname}", "w") then
f.write(text). Opening an existing name for writing replaces that file's
content; otherwise a new directory entry appears. -/
def write_transcript : Store → List ℕ → String → Store
  | [], k, text => [(k, text)]
  | p :: rest, k, text =>
    if p.1 = k then write_transcript rest k text
    else p :: write_transcript rest k text

/-- Lines 181 to 183 of main.py, open_history: open the selected file and
read its content; none models the file-not-found error. -/
def read_transcript : Store → List ℕ → Option String
  | [], _ => none
  | p :: rest, k => if p.1 = k then some p.2 else read_transcript rest k

/-- os.listdir(TRANSCRIPT_DIR): the filenames of the directory. -/
def listdir (s : Store) : List (List ℕ) := s.map (fun p => p.1)

/-- sorted(files, reverse=True) at line 173 of main.py: descending
lexicographic sort of the filenames. -/
def sortedDesc (files : List (List ℕ)) : List (List ℕ) :=
  List.insertionSort (· ≥ ·) files

/-- Lines 171 to 175 of main.py, refresh_history generalized over the
slice bound: sorted(os.listdir(TRANSCRIPT_DIR), reverse=True)[:n]. -/
def list_limit (files : List (List ℕ)) (n : ℕ) : List (List ℕ) :=
  (sortedDesc files).take n

/-- refresh_history itself displays files[:10]. -/
def refresh_history (files : List (List ℕ)) : List (List ℕ) :=
  list_limit files 10

theorem read_write_self (s : Store) (k : List ℕ) (text : String) :
    read_transcript (write_transcript s k text) k = some text := by
  induction s with
  | nil => simp [write_transcript, read_transcript]
  | cons p rest ih =>
    by_cases hp : p.1 = k
    · simp [write_transcript, hp, ih]
    · simp [write_transcript, read_transcript, hp, ih]

theorem read_write_other (s : Store) (k k2 : List ℕ) (text : String)
    (hne : k2 ≠ k) :
    read_transcript (write_transcript s k text) k2 = read_transcript s k2 := by
  have hne2 : ¬ k = k2 := fun h => hne h.symm
  induction s with
  | nil => simp [write_transcript, read_transcript, hne2]
  | cons p rest ih =>
    by_cases hp : p.1 = k
    · have hp2 : ¬ p.1 = k2 := by rw [hp]; exact hne2
      rw [write_transcript, if_pos hp, ih, read_transcript, if_neg hp2]
    · rw [write_transcript, if_neg hp, read_transcript, read_transcript]
      by_cases hp2 : p.1 = k2
      · rw [if_pos hp2, if_pos hp2]
      · rw [if_neg hp2, if_neg hp2, ih]

theorem mem_listdir_write (s : Store) (k k2 : List ℕ) (text : String)
    (h : k2 ∈ listdir (write_transcript s k text)) :
    k2 = k ∨ k2 ∈ listdir s := by
  induction s with
  | nil =>
    simp [write_transcript, listdir] at h
    exact Or.inl h
  | cons p rest ih =>
    by_cases hp : p.1 = k
    · rw [write_transcript, if_pos hp] at h
      rcases ih h with h2 | h2
      · exact Or.inl h2
      · exact Or.inr (by simp [listdir]; exact Or.inr (by simpa [listdir] using h2))
    · rw [write_transcript, if_neg hp] at h
      simp only [listdir, List.map_cons, List.mem_cons] at h
      rcases h with h2 | h2
      · exact Or.inr (by simp [listdir, h2])
      · rcases ih (by simpa [listdir] using h2) with h3 | h3
        · exact Or.inl h3
        · exact Or.inr (by simp [listdir]; exact Or.inr (by simpa [listdir] using h3))

theorem mem_listdir_write_self (s : Store) (k : List ℕ) (text : String) :
    k ∈ listdir (write_transcript s k text) := by
  induction s with
  | nil => simp [write_transcript, listdir]
  | cons p rest ih =>
    by_cases hp : p.1 = k
    · simpa [write_transcript, hp] using ih
    · simp only [write_transcript, if_neg hp, listdir, List.map_cons, List.mem_cons]
      exact Or.inr (by simpa [listdir] using ih)

theorem sortedDesc_sorted (files : List (List ℕ)) :
    List.Sorted (· ≥ ·) (sortedDesc files) :=
  List.sorted_insertionSort (· ≥ ·) files

theorem sortedDesc_perm (files : List (List ℕ)) :
    (sortedDesc files).Perm files :=
  List.perm_insertionSort (· ≥ ·) files

/-- A descending sort of distinct names is strictly descending. -/
theorem sortedDesc_pairwise_gt (files : List (List ℕ)) (hnd : files.Nodup) :
    (sortedDesc files).Pairwise (· > ·) := by
  have hsort : (sortedDesc files).Pairwise (· ≥ ·) := sortedDesc_sorted files
  have hnd2 : (sortedDesc files).Nodup := (sortedDesc_perm files).nodup_iff.2 hnd
  have hand := List.pairwise_and_iff.2 ⟨hsort, hnd2⟩
  exact hand.imp (fun h => lt_of_le_of_ne h.1 (Ne.symm h.2))

/-- When one of the names is an upper bound of all of them, it is the head
of the descending sort, so files[:1] is exactly that name. -/
theorem take_one_sortedDesc (files : List (List ℕ)) (kmax : List ℕ)
    (hmem : kmax ∈ files) (hmax : ∀ k ∈ files, k ≤ kmax) :
    list_limit files 1 = [kmax] := by
  have hperm := sortedDesc_perm files
  have hsort := sortedDesc_sorted files
  cases hsd : sortedDesc files with
  | nil =>
    rw [hsd] at hperm
    exact absurd (hperm.symm.subset hmem) (by simp)
  | cons h t =>
    rw [hsd] at hperm hsort
    have hh : h ∈ files := hperm.subset (by simp)
    have h1 : h ≤ kmax := hmax h hh
    have hkm : kmax ∈ h :: t := hperm.symm.subset hmem
    have h2 : kmax ≤ h := by
      rcases List.mem_cons.1 hkm with he | hmem2
      · rw [he]
      · exact List.rel_of_sorted_cons hsort kmax hmem2
    have he : h = kmax := le_antisymm h1 h2
    rw [list_limit, hsd, he]
    rfl

/-- np.abs then np.max over a sample sequence; 0 for the empty sequence
(np.max would raise there, but stop_record only reaches this point with a
non-empty buffer). -/
def maxAbsSample (l : List ℚ) : ℚ := l.foldr (fun x m => max |x| m) 0

theorem le_maxAbsSample (l : List ℚ) (x : ℚ) (hx : x ∈ l) :
    |x| ≤ maxAbsSample l := by
  induction l with
  | nil => cases hx
  | cons a rest ih =>
    rcases List.mem_cons.1 hx with he | hmem
    · rw [he]
      exact le_max_left _ _
    · exact le_trans (ih hmem) (le_max_right _ _)

theorem maxAbsSample_nonneg (l : List ℚ) : 0 ≤ maxAbsSample l := by
  induction l with
  | nil => exact le_refl 0
  | cons a rest ih => exact le_trans ih (le_max_right _ _)

/-- The maximum absolute sample is attained whenever it is nonzero. -/
theorem maxAbsSample_attained (l : List ℚ) (hne : maxAbsSample l ≠ 0) :
    ∃ x ∈ l, |x| = maxAbsSample l := by
  induction l with
  | nil => exact absurd rfl hne
  | cons a rest ih =>
    rcases le_total (maxAbsSample rest) |a| with hle | hle
    · exact ⟨a, List.mem_cons_self a rest, (max_eq_left hle).symm⟩
    · have hmax : maxAbsSample (a :: rest) = maxAbsSample rest :=
        max_eq_right hle
      rw [hmax] at hne ⊢
      obtain ⟨x, hx, hxe⟩ := ih hne
      exact ⟨x, List.mem_cons_of_mem a hx, hxe⟩

/-- Truncation toward zero, the conversion C (and hence numpy astype)
applies when casting a float to an integer type. -/
def truncTowardZero (q : ℚ) : ℤ := if 0 ≤ q then ⌊q⌋ else ⌈q⌉

/-- Wrap an integer into the int16 range, the bit level effect of numpy
astype(np.int16) on an in-range or overflowing finite value. -/
def wrap16 (n : ℤ) : ℤ := (n + 32768) % 65536 - 32768

/-- astype(np.int16) applied to a finite float value. -/
def astype_int16 (q : ℚ) : ℤ := wrap16 (truncTowardZero q)

theorem wrap16_eq_self (n : ℤ) (h1 : -32768 ≤ n) (h2 : n ≤ 32767) :
    wrap16 n = n := by
  unfold wrap16
  have h3 : 0 ≤ n + 32768 := by omega
  have h4 : n + 32768 < 65536 := by omega
  rw [Int.emod_eq_of_lt h3 h4]
  omega

theorem truncTowardZero_abs_le (q : ℚ) (c : ℕ) (h : |q| ≤ (c : ℚ)) :
    |truncTowardZero q| ≤ (c : ℤ) := by
  unfold truncTowardZero
  rcases abs_le.1 h with ⟨hlo, hhi⟩
  by_cases hq : 0 ≤ q
  · rw [if_pos hq]
    have hfl : 0 ≤ ⌊q⌋ := Int.floor_nonneg.2 hq
    have hfu : ⌊q⌋ ≤ (c : ℤ) := by
      have := Int.floor_le_floor hhi
      rwa [Int.floor_natCast] at this
    rw [abs_of_nonneg hfl]
    exact hfu
  · rw [if_neg hq]
    push_neg at hq
    have hcl : ⌈q⌉ ≤ 0 := by
      rw [show (0 : ℤ) = ((0 : ℤ)) from rfl]
      exact Int.ceil_le.2 (by exact_mod_cast le_of_lt hq)
    have hcu : -(c : ℤ) ≤ ⌈q⌉ := by
      have := Int.ceil_le_ceil hlo
      rwa [show ((-(c : ℚ)) : ℚ) = ((-(c : ℤ) : ℤ) : ℚ) by push_cast; ring,
        Int.ceil_intCast] at this
    rw [abs_of_nonpos hcl]
    omega

/-- Lines 88 to 90 of main.py: audio = np.concatenate(buffer);
audio = audio / np.max(np.abs(audio)); audio = (audio * 32767)
.astype(np.int16). When the maximum is zero every sample is 0.0 and
0.0 / 0.0 is IEEE NaN, modelled as none; casting NaN to int16 is
undefined, so the artifact sample stays none. -/
def stop_record_artifact (buffer : List (List ℚ)) : List (Option ℤ) :=
  buffer.flatten.map (fun x =>
    if maxAbsSample buffer.flatten = 0 then none
    else some (astype_int16 (x / maxAbsSample buffer.flatten * 32767)))

/-- The module level mutable state of main.py: the recording flag, the
frame buffer, how many sounddevice input streams are open (opened by
InputStream(...).start(), closed by stream.stop(); stream.close()), the
level global, the amplitude last passed to draw_wave, the status StringVar,
the transcripts directory and the contents of recordings/record.wav. -/
structure AppState where
  recording : Bool
  buffer : List (List ℚ)
  openStreams : ℕ
  level : ℚ
  lastDrawn : ℚ
  status : String
  transcripts : Store
  wav : Option (List (Option ℤ))
deriving DecidableEq

/-- Outcome of a call that can raise: ok is normal return, raised carries
the state left behind by an uncaught Python exception. -/
inductive RunResult where
  | ok (st : AppState)
  | raised (st : AppState)
deriving DecidableEq

/-- Lines 53 to 72 of main.py, start_record: clear the buffer, set the
recording flag, set the status text, construct a new InputStream and start
it. There is no guard: a stream already open stays open and its handle is
overwritten. -/
def start_record (st : AppState) : AppState :=
  { st with
    buffer := []
    recording := true
    status := "Recording..."
    openStreams := st.openStreams + 1 }

/-- Lines 99 to 121 of main.py, transcribe: set the status to
Transcribing, call the whisper model (its result is modelled by the engine
argument; none models an exception inside model.transcribe, which
propagates uncaught), write the text to a fresh timestamped file in the
transcripts directory and set the status back to Hold to record. -/
def transcribe (engine : Option String) (now : DateTime) (st : AppState) :
    RunResult :=
  let st1 := { st with status := "Transcribing..." }
  match engine with
  | none => .raised st1
  | some text =>
    .ok { st1 with
          transcripts := write_transcript st1.transcripts (fnameOf now) text
          status := "Hold to record" }

/-- Lines 74 to 94 of main.py, stop_record: return unchanged unless
recording; otherwise clear the flag, stop and close the stream, draw the
wave at amplitude 0, and if the buffer is empty just set the status to
Ready; else finalize the waveform into recordings/record.wav and call
transcribe on it. -/
def stop_record (engine : Option String) (now : DateTime) (st : AppState) :
    RunResult :=
  if st.recording = false then .ok st
  else
    let st1 := { st with
                 recording := false
                 openStreams := st.openStreams - 1
                 lastDrawn := 0 }
    if st1.buffer = [] then .ok { st1 with status := "Ready" }
    else
      transcribe engine now
        { st1 with wav := some (stop_record_artifact st1.buffer) }

/-- Modelled from the spec: the Waveform Finalizer is described as
quantizing each scaled sample by rounding to the nearest representable
integer and clamping to the representable range of the 16 bit signed
encoding; this definition follows those words, to be compared with the
truncation the source actually performs. -/
def quantizeSpec (q : ℚ) : ℤ := min 32767 (max (-32768) (round (q * 32767)))

/-- The initial state of main.py after module load: not recording, empty
buffer, no open stream, level 0.0, status "Hold to record", empty
transcripts directory, no recorded wav yet. -/
def st0 : AppState :=
  { recording := false
    buffer := []
    openStreams := 0
    level := 0
    lastDrawn := 0
    status := "Hold to record"
    transcripts := []
    wav := none }

/-- A sample concrete instant. -/
def dtc : DateTime := ⟨2024, 5, 6, 7, 8, 9⟩

/-- A second concrete instant, one second later. -/
def dtc2 : DateTime := ⟨2024, 5, 6, 7, 8, 10⟩

/-- C1 counterexample: from the state whose status shows a job in flight
("Transcribing..." is the only in flight marker the program has), a further
transcribe call does not fail with any Busy error: it runs the engine and
writes a new record exactly as from an idle state. -/
theorem transcribe_inflight_counterexample :
    ({ st0 with status := "Transcribing..." } : AppState).status
        = "Transcribing..." ∧
    transcribe (some "hello") dtc { st0 with status := "Transcribing..." } =
      .ok { st0 with
            transcripts := [(fnameOf dtc, "hello")]
            status := "Hold to record" } := by
  exact ⟨rfl, rfl⟩

/-- C1 amended: transcribe has no in flight guard at all. For every state,
whatever its status, a call with a succeeding engine proceeds
unconditionally, writes the record and sets the status back to Hold to
record; no Busy failure exists, and at most one job in flight is provided
only by the single threaded blocking caller, not by this function. -/
theorem transcribe_no_inflight_guard (st : AppState) (text : String)
    (now : DateTime) :
    transcribe (some text) now st =
      .ok { st with
            transcripts := write_transcript st.transcripts (fnameOf now) text
            status := "Hold to record" } := rfl

/-- C7 counterexample: with the session already Recording and one stream
open, start_record is neither rejected nor a no-op: it opens a second
input stream (and the first is never stopped or closed, its handle is
overwritten). -/
theorem start_record_inflight_counterexample :
    ({ st0 with recording := true, openStreams := 1, status := "Recording..." } : AppState).recording = true ∧
    (start_record { st0 with recording := true, openStreams := 1, status := "Recording..." }).openStreams = 2 := by
  exact ⟨rfl, rfl⟩

/-- C7 amended: start_record has no Recording guard: from every state,
including one already Recording, it clears the buffer, sets the recording
flag and opens one more input stream without closing the previous one, so
a start while Recording double-opens the stream. -/
theorem start_record_no_guard (st : AppState) :
    (start_record st).openStreams = st.openStreams + 1 ∧
    (start_record st).recording = true ∧
    (start_record st).buffer = [] := ⟨rfl, rfl, rfl⟩

/-- C8 counterexample: when the engine raises, the exception propagates
out of transcribe uncaught: no record is written (the transcripts
directory is unchanged), but the status is left at "Transcribing...",
which is neither of the idle statuses, so the pipeline does not return to
Idle. -/
theorem engine_failure_counterexample :
    transcribe none dtc st0 = .raised { st0 with status := "Transcribing..." } ∧
    ("Transcribing..." : String) ≠ "Hold to record" ∧
    ("Transcribing..." : String) ≠ "Ready" := by
  refine ⟨rfl, by decide, by decide⟩

/-- C8 amended: on engine failure the error propagates as an uncaught
exception (the caller sees the failure, the TranscriptionFailed channel of
the spec); no transcript record is written; but the status stays at
"Transcribing..." instead of returning to the idle status. -/
theorem transcribe_engine_failure (st : AppState) (now : DateTime) :
    transcribe none now st = .raised { st with status := "Transcribing..." } :=
  rfl

/-- C9 counterexample: from the freshly loaded program (status "Hold to
record"), pressing and releasing without any audio block delivered leaves
no artifact and runs no transcription, but the status ends at "Ready",
which is not the status the session had before start. -/
theorem empty_stop_status_counterexample :
    st0.status = "Hold to record" ∧
    stop_record (some "hello") dtc (start_record st0) =
      .ok { st0 with status := "Ready" } ∧
    ("Ready" : String) ≠ "Hold to record" := by
  refine ⟨rfl, rfl, by decide⟩

/-- C9 amended: stopping a recording whose buffer is empty writes no
artifact (wav unchanged) and never invokes the pipeline (transcripts
unchanged, no engine call), but the status is unconditionally set to
"Ready" rather than restored to its value from before start, so the
status changes whenever the pre-start status was anything other than
"Ready" — as in the counterexample, where it was the initial "Hold to
record". -/
theorem stop_record_empty_buffer (engine : Option String) (now : DateTime)
    (st : AppState) (hrec : st.recording = true) (hbuf : st.buffer = []) :
    stop_record engine now st =
      .ok { st with
            recording := false
            openStreams := st.openStreams - 1
            lastDrawn := 0
            status := "Ready" } := by
  unfold stop_record
  rw [hrec]
  simp [hbuf]

/-- C9 witness at a concrete recording state with an empty buffer. -/
theorem stop_record_empty_buffer_witness :
    ({ st0 with recording := true, openStreams := 1 } : AppState).recording = true ∧
    ({ st0 with recording := true, openStreams := 1 } : AppState).buffer = [] ∧
    stop_record none dtc { st0 with recording := true, openStreams := 1 } =
      .ok { ({ st0 with recording := true, openStreams := 1 } : AppState) with
            recording := false
            openStreams := ({ st0 with recording := true, openStreams := 1 } : AppState).openStreams - 1
            lastDrawn := 0
            status := "Ready" } :=
  ⟨rfl, rfl, stop_record_empty_buffer none dtc _ rfl rfl⟩

/-- C10 counterexample: stopping while Recording with the level reading
one half leaves the level at one half, not 0 (only the drawn waveform is
reset to amplitude 0 by draw_wave(0); the level variable is never
cleared). -/
theorem stop_record_level_counterexample :
    stop_record none dtc
        { st0 with recording := true, openStreams := 1, level := 1/2, status := "Recording..." } =
      .ok { st0 with level := 1/2, status := "Ready" } ∧
    ((1 : ℚ)/2 ≠ 0) := by
  refine ⟨rfl, by norm_num⟩

/-- C10 amended: every stop while Recording ends with the session Idle
(recording flag cleared), the stream stopped and closed (one fewer open
stream), the waveform drawn at amplitude 0 — but the level variable keeps
its previous value instead of being reset to 0. -/
theorem stop_record_while_recording (engine : Option String) (now : DateTime)
    (st : AppState) (hrec : st.recording = true) :
    ∃ st2,
      (stop_record engine now st = .ok st2 ∨
        stop_record engine now st = .raised st2) ∧
      st2.recording = false ∧ st2.openStreams = st.openStreams - 1 ∧
      st2.lastDrawn = 0 ∧ st2.level = st.level := by
  by_cases hbuf : st.buffer = []
  · refine ⟨{ st with
        recording := false
        openStreams := st.openStreams - 1
        lastDrawn := 0
        status := "Ready" }, Or.inl ?_, rfl, rfl, rfl, rfl⟩
    unfold stop_record
    rw [hrec]
    simp [hbuf]
  · cases engine with
    | none =>
      refine ⟨{ st with
          recording := false
          openStreams := st.openStreams - 1
          lastDrawn := 0
          wav := some (stop_record_artifact st.buffer)
          status := "Transcribing..." }, Or.inr ?_, rfl, rfl, rfl, rfl⟩
      unfold stop_record transcribe
      rw [hrec]
      simp [hbuf]
    | some text =>
      refine ⟨{ st with
          recording := false
          openStreams := st.openStreams - 1
          lastDrawn := 0
          wav := some (stop_record_artifact st.buffer)
          transcripts := write_transcript st.transcripts (fnameOf now) text
          status := "Hold to record" }, Or.inl ?_, rfl, rfl, rfl, rfl⟩
      unfold stop_record transcribe
      rw [hrec]
      simp [hbuf]

/-- C10 witness at a concrete recording state. -/
theorem stop_record_while_recording_witness :
    ({ st0 with recording := true, openStreams := 1, level := 1/2 } : AppState).recording = true ∧
    (∃ st2,
      (stop_record none dtc { st0 with recording := true, openStreams := 1, level := 1/2 } = .ok st2 ∨
        stop_record none dtc { st0 with recording := true, openStreams := 1, level := 1/2 } = .raised st2) ∧
      st2.recording = false ∧
      st2.openStreams = ({ st0 with recording := true, openStreams := 1, level := 1/2 } : AppState).openStreams - 1 ∧
      st2.lastDrawn = 0 ∧
      st2.level = ({ st0 with recording := true, openStreams := 1, level := 1/2 } : AppState).level) :=
  ⟨rfl, stop_record_while_recording none dtc _ rfl⟩

/-- C2: the code does not skip normalization on pure silence. At the
failing input of one all-zero block, np.max(np.abs(audio)) is 0.0 and
line 89 divides by it: 0.0 / 0.0 is NaN (modelled none), so the artifact
holds a NaN sample rather than the silent sample 0 the spec requires. -/
theorem silence_finalize_divzero :
    stop_record_artifact [[0]] = [none] ∧ (none : Option ℤ) ≠ some 0 := by
  refine ⟨?_, by decide⟩
  decide

theorem astype_int16_max : astype_int16 (32767 : ℚ) = 32767 := by decide

theorem astype_int16_min : astype_int16 (-32767 : ℚ) = -32767 := by decide

/-- C4 amended: for a buffer holding at least one nonzero sample, every
artifact sample is a defined int16 value of magnitude at most 32767 and
the peak magnitude 32767 is attained; but each scaled sample is quantized
by truncation toward zero (the C float-to-int cast of astype), not by
rounding to nearest. -/
theorem finalize_peak (buffer : List (List ℚ)) (x0 : ℚ)
    (hx0 : x0 ∈ buffer.flatten) (hx0ne : x0 ≠ 0) :
    (∀ o ∈ stop_record_artifact buffer, ∃ n : ℤ, o = some n ∧ |n| ≤ 32767) ∧
    (some (32767 : ℤ) ∈ stop_record_artifact buffer ∨
      some (-32767 : ℤ) ∈ stop_record_artifact buffer) := by
  have hm0 : 0 < maxAbsSample buffer.flatten :=
    lt_of_lt_of_le (abs_pos.2 hx0ne) (le_maxAbsSample buffer.flatten x0 hx0)
  have hmne : maxAbsSample buffer.flatten ≠ 0 := ne_of_gt hm0
  constructor
  · intro o ho
    rw [stop_record_artifact] at ho
    obtain ⟨x, hx, he⟩ := List.mem_map.1 ho
    rw [if_neg hmne] at he
    refine ⟨truncTowardZero (x / maxAbsSample buffer.flatten * 32767), ?_, ?_⟩
    · rw [← he]
      have hb : |x / maxAbsSample buffer.flatten * 32767| ≤ ((32767 : ℕ) : ℚ) := by
        rw [abs_mul, abs_div, abs_of_pos hm0]
        have h1 : |x| / maxAbsSample buffer.flatten ≤ 1 :=
          (div_le_one hm0).2 (le_maxAbsSample buffer.flatten x hx)
        calc |x| / maxAbsSample buffer.flatten * |(32767 : ℚ)|
            ≤ 1 * |(32767 : ℚ)| :=
              mul_le_mul_of_nonneg_right h1 (abs_nonneg _)
          _ = ((32767 : ℕ) : ℚ) := by norm_num
      have ht := truncTowardZero_abs_le _ 32767 hb
      rcases abs_le.1 ht with ⟨htl, htu⟩
      rw [astype_int16, wrap16_eq_self _ (by omega) (by exact_mod_cast htu)]
    · have hb : |x / maxAbsSample buffer.flatten * 32767| ≤ ((32767 : ℕ) : ℚ) := by
        rw [abs_mul, abs_div, abs_of_pos hm0]
        have h1 : |x| / maxAbsSample buffer.flatten ≤ 1 :=
          (div_le_one hm0).2 (le_maxAbsSample buffer.flatten x hx)
        calc |x| / maxAbsSample buffer.flatten * |(32767 : ℚ)|
            ≤ 1 * |(32767 : ℚ)| :=
              mul_le_mul_of_nonneg_right h1 (abs_nonneg _)
          _ = ((32767 : ℕ) : ℚ) := by norm_num
      have ht := truncTowardZero_abs_le _ 32767 hb
      exact_mod_cast ht
  · obtain ⟨xp, hxp, hxpe⟩ := maxAbsSample_attained buffer.flatten hmne
    rcases (abs_eq (le_of_lt hm0)).1 hxpe with hpos | hneg
    · left
      rw [stop_record_artifact]
      refine List.mem_map.2 ⟨xp, hxp, ?_⟩
      rw [if_neg hmne, hpos, div_self hmne, one_mul, astype_int16_max]
    · right
      rw [stop_record_artifact]
      refine List.mem_map.2 ⟨xp, hxp, ?_⟩
      rw [if_neg hmne, hneg, neg_div, div_self hmne]
      norm_num [astype_int16_min]

/-- C4 witness at a concrete one-block buffer. -/
theorem finalize_peak_witness :
    ((1 : ℚ) ∈ ([[1]] : List (List ℚ)).flatten ∧ (1 : ℚ) ≠ 0) ∧
    ((∀ o ∈ stop_record_artifact [[1]], ∃ n : ℤ, o = some n ∧ |n| ≤ 32767) ∧
      (some (32767 : ℤ) ∈ stop_record_artifact [[1]] ∨
        some (-32767 : ℤ) ∈ stop_record_artifact [[1]])) :=
  ⟨⟨by decide, by decide⟩, finalize_peak [[1]] 1 (by decide) (by decide)⟩

/-- C4 counterexample: at the buffer holding samples one half and one, the
source truncates the scaled sample 16383.5 to 16383, while quantization by
rounding to the nearest representable integer, as the claim states, gives
16384. -/
theorem finalize_quantization_counterexample :
    stop_record_artifact [[1/2, 1]] = [some 16383, some 32767] ∧
    quantizeSpec (1/2) = 16384 ∧ ((16383 : ℤ) ≠ 16384) := by
  have habs : |(1 : ℚ)/2| = 1/2 := by
    rw [abs_of_pos]
    norm_num
  refine ⟨?_, ?_, by decide⟩
  · norm_num [stop_record_artifact, maxAbsSample, astype_int16, truncTowardZero,
      wrap16, habs, sup_eq_max, max_def]
  · have hr : round ((1 : ℚ)/2 * 32767) = 16384 := by
      rw [round_eq]
      norm_num
    rw [quantizeSpec, hr]
    decide

/-- C3 counterexample: two saves in the same second derive the same
filename, and the second open(..., "w") silently replaces the first
record: the directory ends with a single record holding only the second
text. -/
theorem same_second_save_counterexample :
    write_transcript (write_transcript [] (fnameOf dtc) "first")
        (fnameOf dtc) "second" = [(fnameOf dtc, "second")] ∧
    ("first" : String) ≠ "second" := by
  refine ⟨?_, by decide⟩
  simp [write_transcript]

/-- C3 amended: saves in the same second collide and the second silently
destroys the first; only saves at distinct instants (any strftime field
differing) get distinct identifiers, and then neither overwrites the
other: both texts stay retrievable. -/
theorem save_distinct_seconds (s : Store) (t1 t2 : DateTime)
    (text1 text2 : String) (h1 : t1.Valid) (h2 : t2.Valid) (hne : t1 ≠ t2) :
    fnameOf t1 ≠ fnameOf t2 ∧
    read_transcript
        (write_transcript (write_transcript s (fnameOf t1) text1)
          (fnameOf t2) text2) (fnameOf t1) = some text1 ∧
    read_transcript
        (write_transcript (write_transcript s (fnameOf t1) text1)
          (fnameOf t2) text2) (fnameOf t2) = some text2 := by
  have hfne := fnameOf_inj t1 t2 h1 h2 hne
  refine ⟨hfne, ?_, read_write_self _ _ _⟩
  rw [read_write_other _ _ _ _ hfne, read_write_self]

/-- C3 witness: two concrete saves one second apart. -/
theorem save_distinct_seconds_witness :
    (dtc.Valid ∧ dtc2.Valid ∧ dtc ≠ dtc2) ∧
    (fnameOf dtc ≠ fnameOf dtc2 ∧
      read_transcript
          (write_transcript (write_transcript [] (fnameOf dtc) "first")
            (fnameOf dtc2) "second") (fnameOf dtc) = some "first" ∧
      read_transcript
          (write_transcript (write_transcript [] (fnameOf dtc) "first")
            (fnameOf dtc2) "second") (fnameOf dtc2) = some "second") :=
  ⟨⟨by decide, by decide, by decide⟩,
    save_distinct_seconds [] dtc dtc2 "first" "second"
      (by decide) (by decide) (by decide)⟩

/-- C5: after save(text) under a clock at or past every existing record
identifier (normal monotone clock behavior), listing one identifier
returns exactly the new record identifier and reading it returns exactly
the saved text. -/
theorem save_list_read_roundtrip (s : Store) (now : DateTime) (text : String)
    (hmax : ∀ k ∈ listdir s, k ≤ fnameOf now) :
    list_limit (listdir (write_transcript s (fnameOf now) text)) 1 =
      [fnameOf now] ∧
    read_transcript (write_transcript s (fnameOf now) text) (fnameOf now) =
      some text := by
  refine ⟨?_, read_write_self s _ text⟩
  apply take_one_sortedDesc
  · exact mem_listdir_write_self s _ text
  · intro k hk
    rcases mem_listdir_write s (fnameOf now) k text hk with rfl | hk2
    · exact le_refl _
    · exact hmax k hk2

/-- C5 witness: saving into an empty transcripts directory. -/
theorem save_list_read_roundtrip_witness :
    (∀ k ∈ listdir ([] : Store), k ≤ fnameOf dtc) ∧
    (list_limit (listdir (write_transcript [] (fnameOf dtc) "hello")) 1 =
        [fnameOf dtc] ∧
      read_transcript (write_transcript [] (fnameOf dtc) "hello")
          (fnameOf dtc) = some "hello") :=
  ⟨fun k hk => absurd hk (by simp [listdir]), 
    save_list_read_roundtrip [] dtc "hello"
      (fun k hk => absurd hk (by simp [listdir]))⟩

/-- C6: for every directory state (directory entries are distinct by
nature), the history listing holds at most 10 identifiers, is strictly
descending in the lexicographic filename order, and hence is reverse
chronological: wherever two listed identifiers come from valid instants,
the later listed one names the earlier instant. -/
theorem refresh_history_spec (files : List (List ℕ)) (hnd : files.Nodup) :
    (refresh_history files).length ≤ 10 ∧
    (refresh_history files).Pairwise (· > ·) ∧
    (refresh_history files).Pairwise (fun a b => ∀ ta tb : DateTime,
      ta.Valid → tb.Valid → a = fnameOf ta → b = fnameOf tb →
        tb.Earlier ta) := by
  have hgt : (refresh_history files).Pairwise (· > ·) :=
    List.Pairwise.sublist (List.take_sublist 10 _)
      (sortedDesc_pairwise_gt files hnd)
  refine ⟨?_, hgt, ?_⟩
  · rw [refresh_history, list_limit, List.length_take]
    exact min_le_left _ _
  · refine hgt.imp ?_
    intro a b hab ta tb hva hvb ha hb
    subst ha
    subst hb
    exact (fnameOf_lex_iff tb ta hvb hva).1 hab

/-- C6 witness at a concrete two-entry directory. -/
theorem refresh_history_spec_witness :
    ([fnameOf dtc, fnameOf dtc2] : List (List ℕ)).Nodup ∧
    ((refresh_history [fnameOf dtc, fnameOf dtc2]).length ≤ 10 ∧
      (refresh_history [fnameOf dtc, fnameOf dtc2]).Pairwise (· > ·) ∧
      (refresh_history [fnameOf dtc, fnameOf dtc2]).Pairwise
        (fun a b => ∀ ta tb : DateTime,
          ta.Valid → tb.Valid → a = fnameOf ta → b = fnameOf tb →
            tb.Earlier ta)) :=
  ⟨by decide, refresh_history_spec [fnameOf dtc, fnameOf dtc2] (by decide)⟩
